import Mathlib

/-!
# Verification of the `v_eval` expression evaluator

Shallow embedding of the `v_eval` crate (an embedded expression evaluator
with a dynamically typed `Value` model, an operand-compatibility gate, a
precedence-aware stack reduction engine, an optional-combinator /
numeric-method table, and indexing/slicing).

The repository ships `src/lib.rs` (context type `Eval`, doc-tests, tests)
and `src/operator.rs` (the `Operator` enum, its bit-encoded precedence,
the operand-compatibility gate `check_op`, and the stack-step
`Operator::eval`).  The modules `value.rs`, `method.rs` and `reflect.rs`
are declared but their sources are not present; the definitions below that
embed them are modelled from the specification (each such definition says
so in its doc comment).  Everything taken from `operator.rs` / `lib.rs` is
translated directly from the source.
-/

namespace VEval

/-- Alias for `Bool` usable inside the `Value` namespace, where the
constructor `Value.Bool` shadows the type name. -/
abbrev Boolean := Bool

/-- Modelled from the spec: the payload of `Value::Float` is a 64-bit IEEE
double.  It is abstracted here as either NaN or a rational number; the
claims proved below depend only on the variant structure of float results
and on NaN being incomparable, never on rounding, infinities or signed
zero. -/
inductive F64 : Type where
  | nan : F64
  | num (q : ℚ) : F64
deriving DecidableEq, Repr

/-- Equality of float payloads as IEEE `==`: NaN compares unequal to
everything, including itself.  Modelled from the spec ("64-bit IEEE
double"). -/
def F64.beq : F64 → F64 → Bool
  | .num a, .num b => a == b
  | _, _ => false

/-- Comparison of float payloads as IEEE `partial_cmp`: `None` whenever a
NaN is involved.  Modelled from the spec. -/
def F64.pcmp : F64 → F64 → Option Ordering
  | .num a, .num b => some (compare a b)
  | _, _ => none

/-- The `Value` enum of `value.rs`.  The variant set is fixed by the spec
(§3) and by the uses in `operator.rs` (`Value::Bool`, `Value::Int`,
`Value::Float`, `Value::Str`, `Value::Vec`, `Value::Range`, `Value::None`).
`Int` carries a 64-bit signed integer, modelled as `ℤ` (no claim below
involves overflow); `Range` carries inclusive start / exclusive end. -/
inductive Value : Type where
  | Bool (b : Bool) : Value
  | Int (i : ℤ) : Value
  | Float (f : F64) : Value
  | Str (s : String) : Value
  | Vec (xs : List Value) : Value
  | Range (s e : ℤ) : Value
  | None : Value

/-- `Value::is_same`: both values share the same variant tag, independent
of contents (spec §3; used by `check_op` in `operator.rs`). -/
def Value.is_same : Value → Value → Boolean
  | .Bool _, .Bool _ => true
  | .Int _, .Int _ => true
  | .Float _, .Float _ => true
  | .Str _, .Str _ => true
  | .Vec _, .Vec _ => true
  | .Range _ _, .Range _ _ => true
  | .None, .None => true
  | _, _ => false

/-- Structural equality of values (`PartialEq` on `Value`): variant-exact,
with float payloads compared IEEE-style (NaN never equal).  Modelled from
the spec ("equality/ordering are structural and variant-exact;
cross-variant comparisons are never equal"). -/
def Value.beq : Value → Value → Boolean
  | .Bool a, .Bool b => a == b
  | .Int a, .Int b => a == b
  | .Float a, .Float b => F64.beq a b
  | .Str a, .Str b => a == b
  | .Vec a, .Vec b => beqList a b
  | .Range a b, .Range c d => a == c && b == d
  | .None, .None => true
  | _, _ => false
where
  beqList : List Value → List Value → Boolean
    | [], [] => true
    | x :: xs, y :: ys => Value.beq x y && beqList xs ys
    | _, _ => false

/-- `partial_cmp` on `Value`: defined only within a variant; `Float`
comparisons involving NaN yield `none`.  Modelled from the spec
(cross-variant comparisons never compare; the gate restricts the ordering
operators to same-variant `Int`/`Float` operands anyway). -/
def Value.pcmp : Value → Value → Option Ordering
  | .Bool a, .Bool b => some (compare a b)
  | .Int a, .Int b => some (compare a b)
  | .Float a, .Float b => F64.pcmp a b
  | .Str a, .Str b => some (compare a b)
  | _, _ => none

/-- Repetition of a string: `n ≤ 0` yields the empty string (spec §4.1:
"String repetition `"s" * n`: concatenates `s` with itself `n` times;
`n ≤ 0` yields empty string").  Modelled from the spec. -/
def strRepeat (s : String) : ℤ → String
  | .ofNat n => String.join (List.replicate n s)
  | .negSucc _ => ""

/-- Addition on float payloads; NaN propagates.  Modelled from the spec. -/
def F64.add : F64 → F64 → F64
  | .num a, .num b => .num (a + b)
  | _, _ => .nan

/-- Subtraction on float payloads; NaN propagates.  Modelled from the
spec. -/
def F64.sub : F64 → F64 → F64
  | .num a, .num b => .num (a - b)
  | _, _ => .nan

/-- Multiplication on float payloads; NaN propagates.  Modelled from the
spec. -/
def F64.mul : F64 → F64 → F64
  | .num a, .num b => .num (a * b)
  | _, _ => .nan

/-- The `Add` impl on `Value` (from the missing `value.rs`).  Modelled
from the spec: `Int+Int`, `Float+Float`, `Str+Str` concatenation; the gate
guarantees no other pair reaches it, so other pairs default to `None`. -/
def Value.add : Value → Value → Value
  | .Int a, .Int b => .Int (a + b)
  | .Float a, .Float b => .Float (F64.add a b)
  | .Str a, .Str b => .Str (a ++ b)
  | _, _ => .None

/-- The `Sub` impl on `Value`.  Modelled from the spec. -/
def Value.sub : Value → Value → Value
  | .Int a, .Int b => .Int (a - b)
  | .Float a, .Float b => .Float (F64.sub a b)
  | _, _ => .None

/-- The `Mul` impl on `Value`: numeric product, and string repetition in
both operand orders (`check_op` permits `Int * Str` and `Str * Int`).
Modelled from the spec. -/
def Value.mul : Value → Value → Value
  | .Int a, .Int b => .Int (a * b)
  | .Float a, .Float b => .Float (F64.mul a b)
  | .Str s, .Int n => .Str (strRepeat s n)
  | .Int n, .Str s => .Str (strRepeat s n)
  | _, _ => .None

/-- The `Div` impl on `Value`.  Modelled from the spec; integer division
truncates toward zero as in Rust. -/
def Value.div : Value → Value → Value
  | .Int a, .Int b => .Int (Int.tdiv a b)
  | .Float (.num a), .Float (.num b) =>
      if b = 0 then .Float .nan else .Float (.num (a / b))
  | .Float _, .Float _ => .Float .nan
  | _, _ => .None

/-- The `Rem` impl on `Value`.  Modelled from the spec; integer remainder
as in Rust (`Int.mod` truncates toward zero). -/
def Value.rem : Value → Value → Value
  | .Int a, .Int b => .Int (Int.tmod a b)
  | .Float (.num a), .Float (.num b) =>
      if b = 0 then .Float .nan
      else .Float (.num (a - b * ((Int.tdiv (a / b).num (a / b).den : ℤ) : ℚ)))
  | .Float _, .Float _ => .Float .nan
  | _, _ => .None

/-- `Value::and`: logical conjunction of booleans (the gate restricts
`&&` to `Bool` operands).  Modelled from the spec. -/
def Value.and : Value → Value → Value
  | .Bool a, .Bool b => .Bool (a && b)
  | _, _ => .None

/-- `Value::or`: logical disjunction of booleans.  Modelled from the
spec. -/
def Value.or : Value → Value → Value
  | .Bool a, .Bool b => .Bool (a || b)
  | _, _ => .None

/-- `Value::not`: boolean negation (unary `not` is applied through the
synthetic identity operand `Bool(false)`).  Modelled from the spec. -/
def Value.notV : Value → Value
  | .Bool a => .Bool (!a)
  | _ => .None

/-- `Value::neg`: numeric negation (unary negate is applied through the
synthetic identity operand `Int(0)`).  Modelled from the spec. -/
def Value.negV : Value → Value
  | .Int a => .Int (-a)
  | .Float (.num q) => .Float (.num (-q))
  | .Float .nan => .Float .nan
  | _ => .None

/-- The `Operator` enum of `operator.rs`, with its exact `u8`
discriminants (`ParenLeft = 1 << 1`, ..., `Or = (1 << 6) + 1`).  The
discriminant is carried by `Operator.toU8` below since Lean enums do not
attach numeric representations. -/
inductive Operator : Type where
  | ParenLeft | ParenRight
  | Not | Neg
  | Mul | Div | Rem
  | Add | Sub
  | Eq | Ne | Gt | Lt | Ge | Le
  | And | Or
deriving DecidableEq, Repr

/-- The `repr(u8)` discriminants assigned in `operator.rs`. -/
def Operator.toU8 : Operator → Nat
  | .ParenLeft => 1 <<< 1
  | .ParenRight => (1 <<< 1) + 1
  | .Not => 1 <<< 2
  | .Neg => (1 <<< 2) + 1
  | .Mul => 1 <<< 3
  | .Div => (1 <<< 3) + 1
  | .Rem => (1 <<< 3) + 2
  | .Add => 1 <<< 4
  | .Sub => (1 <<< 4) + 1
  | .Eq => 1 <<< 5
  | .Ne => (1 <<< 5) + 1
  | .Gt => (1 <<< 5) + 2
  | .Lt => (1 <<< 5) + 3
  | .Ge => (1 <<< 5) + 4
  | .Le => (1 <<< 5) + 5
  | .And => 1 <<< 6
  | .Or => (1 <<< 6) + 1

/-- `u8::leading_zeros`: number of leading zero bits in the 8-bit
representation of `n` (defined for `n < 256`). -/
def leadingZeros8 (n : Nat) : Nat :=
  if 128 ≤ n then 0
  else if 64 ≤ n then 1
  else if 32 ≤ n then 2
  else if 16 ≤ n then 3
  else if 8 ≤ n then 4
  else if 4 ≤ n then 5
  else if 2 ≤ n then 6
  else if 1 ≤ n then 7
  else 8

/-- `Operator::preference` from `operator.rs`:
`(self as u8).leading_zeros().cmp(&(o as u8).leading_zeros())`. -/
def Operator.preference (a o : Operator) : Ordering :=
  compare (leadingZeros8 a.toU8) (leadingZeros8 o.toU8)

/-- `Operator::gt_preference` from `operator.rs`. -/
def Operator.gt_preference (a o : Operator) : Bool :=
  match a.preference o with
  | .gt => true
  | _ => false

/-- `Operator::eq_preference` from `operator.rs`. -/
def Operator.eq_preference (a o : Operator) : Bool :=
  match a.preference o with
  | .eq => true
  | _ => false

/-- `check_op` from `operator.rs`, translated clause by clause.  `Neg` and
`Not` are gated against their synthetic identity operands (`Int(0)`,
`Bool(false)`), compared via structural `PartialEq` (`Value.beq`). -/
def check_op (op : Operator) (op1 op2 : Value) : Bool :=
  match op1 with
  | .Int _ =>
    match op with
    | .Mul =>
      match op2 with
      | .Str _ => true
      | _ => op1.is_same op2
    | .Add | .Sub | .Div | .Rem | .Eq | .Ne | .Gt | .Ge | .Lt | .Le => op1.is_same op2
    | .Neg => Value.beq op2 (.Int 0)
    | _ => false
  | .Float _ =>
    match op with
    | .Add | .Mul | .Sub | .Div | .Rem | .Eq | .Ne | .Gt | .Ge | .Lt | .Le => op1.is_same op2
    | .Neg => Value.beq op2 (.Int 0)
    | _ => false
  | .Str _ =>
    match op with
    | .Mul =>
      match op2 with
      | .Int _ => true
      | _ => false
    | .Add | .Eq | .Ne => op1.is_same op2
    | _ => false
  | .Range _ _ | .Vec _ =>
    match op with
    | .Eq | .Ne => op1.is_same op2
    | _ => false
  | .Bool _ =>
    match op with
    | .Eq | .Ne | .And | .Or => op1.is_same op2
    | .Not => Value.beq op2 (.Bool false)
    | _ => false
  | .None => false

/-- The `Eval for Operator` stack step of `operator.rs`: pop `op2` then
`op1` from the stack (stack head = top), check the gate, then push the
operator's result; an incomparable pair under an ordering operator, a
failed gate, an underfull stack, and a parenthesis operator (the source's
`unreachable!`) all fail.  `Err(())` is modelled as `Except.error ()`. -/
def Operator.evalStep (op : Operator) (stack : List Value) :
    Except Unit (List Value) :=
  match stack with
  | op2 :: op1 :: rest =>
    if check_op op op1 op2 then
      match op with
      | .Add => .ok (Value.add op1 op2 :: rest)
      | .Sub => .ok (Value.sub op1 op2 :: rest)
      | .Mul => .ok (Value.mul op1 op2 :: rest)
      | .Div => .ok (Value.div op1 op2 :: rest)
      | .Rem => .ok (Value.rem op1 op2 :: rest)
      | .Eq => .ok (.Bool (Value.beq op1 op2) :: rest)
      | .Ne => .ok (.Bool (!Value.beq op1 op2) :: rest)
      | .Gt =>
        match Value.pcmp op1 op2 with
        | some a => .ok (.Bool (a == .gt) :: rest)
        | none => .error ()
      | .Ge =>
        match Value.pcmp op1 op2 with
        | some a => .ok (.Bool (a == .gt || a == .eq) :: rest)
        | none => .error ()
      | .Lt =>
        match Value.pcmp op1 op2 with
        | some a => .ok (.Bool (a == .lt) :: rest)
        | none => .error ()
      | .Le =>
        match Value.pcmp op1 op2 with
        | some a => .ok (.Bool (a == .lt || a == .eq) :: rest)
        | none => .error ()
      | .And => .ok (Value.and op1 op2 :: rest)
      | .Or => .ok (Value.or op1 op2 :: rest)
      | .Not => .ok (Value.notV op1 :: rest)
      | .Neg => .ok (Value.negV op1 :: rest)
      | .ParenLeft | .ParenRight => .error ()
    else .error ()
  | _ => .error ()

/-- A token of a linearized operator run: an operand or an operator.
Modelled from the spec (§4.2): the engine in the missing `reflect.rs`
"linearizes a run of same-level operators/operands from the tree". -/
inductive Tok : Type where
  | val (v : Value) : Tok
  | op (o : Operator) : Tok

/-- Modelled from the spec (§4.2): before pushing a new operator `o`,
fully reduce every pending operator of higher-or-equal precedence against
the top of the value stack. -/
def flushGE (o : Operator) :
    List Operator → List Value → Except Unit (List Operator × List Value)
  | [], vs => .ok ([], vs)
  | p :: ps, vs =>
    if p.gt_preference o || p.eq_preference o then
      match p.evalStep vs with
      | .ok vs2 => flushGE o ps vs2
      | .error _ => .error ()
    else .ok (p :: ps, vs)

/-- Modelled from the spec (§4.2): at the end of the run, reduce every
pending operator in stack order. -/
def flushAll : List Operator → List Value → Except Unit (List Value)
  | [], vs => .ok vs
  | p :: ps, vs =>
    match p.evalStep vs with
    | .ok vs2 => flushAll ps vs2
    | .error _ => .error ()

/-- Modelled from the spec (§4.2): the stack-based, precedence-aware fold
over a linearized run — push operands; on each operator first reduce all
pending higher-or-equal-precedence operators; at the end reduce the rest
and require a single value. -/
def runToks : List Tok → List Operator → List Value → Option Value
  | [], ps, vs =>
    match flushAll ps vs with
    | .ok [v] => some v
    | _ => none
  | .val v :: ts, ps, vs => runToks ts ps (v :: vs)
  | .op o :: ts, ps, vs =>
    match flushGE o ps vs with
    | .ok (ps2, vs2) => runToks ts (o :: ps2) vs2
    | .error _ => none

/-- The expression-tree shape produced by the external parser (spec §1,
§6: literal, unary-op, binary-op, identifier/path, method-call,
collection-literal, index, range, parenthesized-group, plus the
transparent reference prefix of §4.4). -/
inductive Expr : Type where
  | lit (v : Value) : Expr
  | ident (name : String) : Expr
  | unop (o : Operator) (e : Expr) : Expr
  | binop (o : Operator) (l r : Expr) : Expr
  | methodCall (recv : Expr) (m : String) (args : List Expr) : Expr
  | vec (xs : List Expr) : Expr
  | range (lo hi : Expr) : Expr
  | index (e i : Expr) : Expr
  | paren (e : Expr) : Expr
  | ref (e : Expr) : Expr

/-- The evaluation context: name ↦ parsed expression subtree (the
`BTreeMap<String, syn::Expr>` inside `Eval` in `lib.rs`), modelled as an
association list whose insertion replaces any earlier binding. -/
def Ctx : Type := List (String × Expr)

/-- `Eval::insert` (after the eager parse step): `BTreeMap::insert`
replaces the previous entry for the key, discarding it without error. -/
def Ctx.insertKV (c : Ctx) (k : String) (e : Expr) : Ctx :=
  (k, e) :: List.filter (fun p => p.1 != k) c

/-- `Eval::remove`: `BTreeMap::remove` drops the entry for the key. -/
def Ctx.removeK (c : Ctx) (k : String) : Ctx :=
  List.filter (fun p => p.1 != k) c

/-- Context lookup (`BTreeMap::get`). -/
def Ctx.lookupK (c : Ctx) (k : String) : Option Expr :=
  List.lookup k c

/-- Modelled from the spec (§4.3): the Group-A combinators whose receiver
tolerates an unresolved name (treated as `None`); `and` and `unwrap` are
deliberately absent. -/
def tolerantMethods : List String :=
  ["is_none", "is_some", "unwrap_or", "or", "xor"]

/-- Is this value the inner `None`? -/
def Value.isNoneV : Value → Boolean
  | .None => true
  | _ => false

/-- Truncation toward zero of a rational (the `f64::trunc` contract on the
modelled payload). -/
def ratTrunc (q : ℚ) : ℤ := Int.tdiv q.num q.den

/-- Floor of a rational (`f64::floor`). -/
def ratFloor (q : ℚ) : ℤ := Int.fdiv q.num q.den

/-- Ceiling of a rational (`f64::ceil`). -/
def ratCeil (q : ℚ) : ℤ := -(Int.fdiv (-q.num) q.den)

/-- Rounding half away from zero of a rational (`f64::round`). -/
def ratRound (q : ℚ) : ℤ :=
  if 0 ≤ q.num then Int.fdiv (2 * q.num + q.den) (2 * q.den)
  else -(Int.fdiv (-(2 * q.num) + q.den) (2 * q.den))

/-- Modelled from the spec (§4.3 Group B): a truncating numeric method
(`trunc`, `floor`, `ceil`, `round`) "returns Int even when the receiver is
Float, per the coercion contract".  `g` is the payload-level rounding; an
`Int` receiver passes through; a NaN payload lands on `Int 0` (Rust's
saturating `as i64` cast of NaN); non-numeric receivers are outer
failures. -/
def truncFamily (g : ℚ → ℤ) : Value → Option Value
  | .Int i => some (.Int i)
  | .Float (.num q) => some (.Int (g q))
  | .Float .nan => some (.Int 0)
  | _ => none

/-- Modelled from the spec (§4.3): dispatch of a method call, given the
already-resolved receiver `r` and an evaluator `ev` for argument
subexpressions (`none` from `ev` is outer failure).  Only the methods the
claims below exercise are included — the Group-A combinators, `is_none` /
`is_some`, and the truncating numeric family; every other name falls to
the spec's "unknown method is outer failure" default. -/
def applyMethod (ev : Expr → Option Value) (r : Value) (m : String)
    (args : List Expr) : Option Value :=
  match m, args with
  | "and", [x] =>
    match r with
    | .None => some .None
    | _ => ev x
  | "or", [x] =>
    match r with
    | .None => ev x
    | _ => some r
  | "xor", [x] =>
    (ev x).bind fun xv =>
      match r, xv with
      | .None, .None => some .None
      | .None, v => some v
      | v, .None => some v
      | _, _ => none
  | "unwrap", [] =>
    match r with
    | .None => none
    | _ => some r
  | "unwrap_or", [d] =>
    match r with
    | .None => ev d
    | _ => some r
  | "is_none", [] => some (.Bool r.isNoneV)
  | "is_some", [] => some (.Bool (!r.isNoneV))
  | "trunc", [] => truncFamily ratTrunc r
  | "floor", [] => truncFamily ratFloor r
  | "ceil", [] => truncFamily ratCeil r
  | "round", [] => truncFamily ratRound r
  | _, _ => none

/-- Vec indexing (spec §4.4): element at the index; outer failure when the
index is out of bounds; no negative indices. -/
def indexVec (xs : List Value) (i : ℤ) : Option Value :=
  match i with
  | .ofNat n => xs.get? n
  | .negSucc _ => none

/-- Str slicing by a range (spec §4.4): substring bounded by the range;
outer failure when the bounds exceed the string's length (or are
inverted, as with Rust's `str::get`). -/
def sliceStr (s : String) (a b : ℤ) : Option Value :=
  if 0 ≤ a ∧ a ≤ b ∧ b ≤ (s.length : ℤ) then
    some (.Str (String.mk ((s.toList.drop a.toNat).take (b - a).toNat)))
  else none

/-- Modelled from the spec (§4.5): the structural evaluator of the missing
`reflect.rs`, with explicit fuel for recursion through context entries
(each entry is re-evaluated afresh, so mutual references could recurse;
the spec leaves the guard open — fuel exhaustion is outer failure).
An identifier is looked up and its subtree evaluated; a method call on an
unresolved identifier substitutes `None` when the method is tolerant
(§4.3) and is an outer failure otherwise; binary and unary nodes go
through the gate-checked stack step of `operator.rs` (the unary identity
operands `Int(0)` / `Bool(false)` are synthesized on top of the stack);
collection literals fail when any element fails; ranges require `Int`
bounds; indexing follows §4.4; parentheses and the reference prefix are
transparent. -/
def evalE : Nat → Ctx → Expr → Option Value
  | 0, _, _ => none
  | fuel + 1, c, e =>
    match e with
    | .lit v => some v
    | .ident nm => (c.lookupK nm).bind (evalE fuel c)
    | .paren e1 => evalE fuel c e1
    | .ref e1 => evalE fuel c e1
    | .unop o e1 =>
      (evalE fuel c e1).bind fun v =>
        let idv : Value := match o with
          | .Not => .Bool false
          | _ => .Int 0
        match o.evalStep [idv, v] with
        | .ok [r] => some r
        | _ => none
    | .binop o l r =>
      (evalE fuel c l).bind fun lv =>
        (evalE fuel c r).bind fun rv =>
          match o.evalStep [rv, lv] with
          | .ok [res] => some res
          | _ => none
    | .methodCall recv m args =>
      let rv : Option Value :=
        match recv with
        | .ident nm =>
          match c.lookupK nm with
          | none => if tolerantMethods.contains m then some .None else none
          | some sub => evalE fuel c sub
        | _ => evalE fuel c recv
      rv.bind fun r => applyMethod (evalE fuel c) r m args
    | .vec xs => (xs.mapM (evalE fuel c)).map Value.Vec
    | .range lo hi =>
      (evalE fuel c lo).bind fun lv =>
        (evalE fuel c hi).bind fun hv =>
          match lv, hv with
          | .Int a, .Int b => some (.Range a b)
          | _, _ => none
    | .index e1 ie =>
      (evalE fuel c e1).bind fun v =>
        (evalE fuel c ie).bind fun iv =>
          match v, iv with
          | .Vec xs, .Int i => indexVec xs i
          | .Str s, .Range a b => sliceStr s a b
          | _, _ => none

/-- The precedence table exactly as the spec states it (§4.2), written as
an explicit level assignment, 0 = highest: parentheses, then the unary
operators, then `* / %`, then `+ -`, then the six comparisons on one
level, then `&&` and `||` on one level.  This definition follows the
spec's words and is compared against the source's bit-encoded
`Operator.preference`. -/
def specLevel : Operator → Nat
  | .ParenLeft | .ParenRight => 0
  | .Not | .Neg => 1
  | .Mul | .Div | .Rem => 2
  | .Add | .Sub => 3
  | .Eq | .Ne | .Gt | .Lt | .Ge | .Le => 4
  | .And | .Or => 5

/-- One gate-checked binary application, as a function on values: the
stack step of `operator.rs` run on the two-value stack `[b, a]` (so `a` is
the left operand). -/
def applyBin (o : Operator) (a b : Value) : Option Value :=
  match o.evalStep [b, a] with
  | .ok [v] => some v
  | _ => none

/-- Rendering of a float payload.  Modelled from the spec (no claim below
depends on float rendering). -/
def F64.render : F64 → String
  | .nan => "NaN"
  | .num q => toString q

/-- The `Display` impl on `Value` (from the missing `value.rs`), modelled
from the spec's canonical rendering contract (§6) and the rendering test
in `lib.rs`: booleans and numbers in literal form, strings double-quoted,
vectors as a bracketed comma-terminated list with a trailing comma after
every element, ranges as `start..end`. -/
def Value.render : Value → String
  | .Bool b => if b then "true" else "false"
  | .Int i => toString i
  | .Float f => F64.render f
  | .Str s => "\"" ++ s ++ "\""
  | .Vec xs => "[" ++ renderList xs ++ "]"
  | .Range a b => toString a ++ ".." ++ toString b
  | .None => "None"
where
  renderList : List Value → String
    | [] => ""
    | x :: xs => Value.render x ++ "," ++ renderList xs

/-! ## Theorems -/

/-- C3: the bit-encoded precedence of `operator.rs` realizes exactly the
spec's table: `gt_preference a b` holds iff `a` sits strictly higher
(parentheses > unary > `* / %` > `+ -` > the six comparisons > `&&`/`||`),
and `eq_preference a b` holds iff `a` and `b` share a level. -/
theorem claim_C3 (a b : Operator) :
    (a.gt_preference b = true ↔ specLevel a < specLevel b) ∧
    (a.eq_preference b = true ↔ specLevel a = specLevel b) := by
  cases a <;> cases b <;> exact ⟨by decide, by decide⟩

/-- C9: `check_op` rejects `Value::None` as a right operand for every
operator and every left operand (each permitted case demands `is_same`
with the left variant, a specific non-`None` right variant, or a specific
synthetic identity value), so a binary application with `None` on either
side fails the stack step and the whole evaluation. -/
theorem claim_C9 (op : Operator) (l r : Value) (s : List Value) (f : Nat) (c : Ctx)
    (h : l = Value.None ∨ r = Value.None) :
    check_op op l Value.None = false ∧
    check_op op Value.None r = false ∧
    op.evalStep (r :: l :: s) = .error () ∧
    evalE (f + 2) c (.binop op (.lit l) (.lit r)) = none := by
  have hnone : ∀ o : Operator, ∀ x : Value, check_op o x Value.None = false := by
    intro o x; cases x <;> cases o <;> rfl
  have hnone2 : ∀ o : Operator, ∀ x : Value, check_op o Value.None x = false :=
    fun _ _ => rfl
  refine ⟨hnone op l, rfl, ?_, ?_⟩ <;> rcases h with rfl | rfl
  · simp [Operator.evalStep, hnone2 op r]
  · simp [Operator.evalStep, hnone op l]
  · simp [evalE, Operator.evalStep, hnone2 op r]
  · simp [evalE, Operator.evalStep, hnone op l]

/-- C9 witness: `None` as right operand of `+` on an `Int` left operand
fails the gate, the stack step, and the evaluation. -/
theorem claim_C9_witness :
    check_op .Add (.Int 1) Value.None = false ∧
    check_op .Add Value.None Value.None = false ∧
    Operator.evalStep .Add [Value.None, .Int 1] = .error () ∧
    evalE 2 [] (.binop .Add (.lit (.Int 1)) (.lit Value.None)) = none :=
  claim_C9 .Add (.Int 1) Value.None [] 0 [] (Or.inr rfl)

/-- C2: an operand pair failing the §4.1 compatibility gate makes the
operator's stack step return `Err` and the whole evaluation return no
value; in particular `Int + Float` fails the gate for every pair of
payloads — there is no implicit int/float coercion. -/
theorem claim_C2 (op : Operator) (l r : Value) (s : List Value) (f : Nat) (c : Ctx)
    (a0 : ℤ) (b0 : F64) (h : check_op op l r = false) :
    op.evalStep (r :: l :: s) = .error () ∧
    evalE (f + 2) c (.binop op (.lit l) (.lit r)) = none ∧
    check_op .Add (.Int a0) (.Float b0) = false ∧
    evalE (f + 2) c (.binop .Add (.lit (.Int a0)) (.lit (.Float b0))) = none := by
  have hif : check_op .Add (.Int a0) (.Float b0) = false := rfl
  exact ⟨by simp [Operator.evalStep, h], by simp [evalE, Operator.evalStep, h],
    hif, by simp [evalE, Operator.evalStep, hif]⟩

/-- C2 witness: `1 + 1.0` fails the gate, the stack step, and the
evaluation. -/
theorem claim_C2_witness :
    Operator.evalStep .Add [.Float (.num 1), .Int 1] = .error () ∧
    evalE 2 [] (.binop .Add (.lit (.Int 1)) (.lit (.Float (.num 1)))) = none ∧
    check_op .Add (.Int 1) (.Float (.num 1)) = false ∧
    evalE 2 [] (.binop .Add (.lit (.Int 1)) (.lit (.Float (.num 1)))) = none :=
  claim_C2 .Add (.Int 1) (.Float (.num 1)) [] 0 [] 1 (.num 1) rfl

/-- C8: under an ordering operator, operands that pass the gate but are
incomparable (`partial_cmp` returns no ordering, e.g. a NaN float) make
`Operator::eval` return `Err` and the whole evaluation return no value. -/
theorem claim_C8 (op : Operator) (l r : Value) (s : List Value) (f : Nat) (c : Ctx)
    (hop : op = .Gt ∨ op = .Ge ∨ op = .Lt ∨ op = .Le)
    (hg : check_op op l r = true) (hp : Value.pcmp l r = none) :
    op.evalStep (r :: l :: s) = .error () ∧
    evalE (f + 2) c (.binop op (.lit l) (.lit r)) = none := by
  rcases hop with rfl | rfl | rfl | rfl <;>
    exact ⟨by simp [Operator.evalStep, hg, hp], by simp [evalE, Operator.evalStep, hg, hp]⟩

/-- C8 witness: `NaN > 0.0` passes the gate (same variant) yet is
incomparable, so the step errs and the evaluation yields no value. -/
theorem claim_C8_witness :
    Operator.evalStep .Gt [.Float (.num 0), .Float .nan] = .error () ∧
    evalE 2 [] (.binop .Gt (.lit (.Float .nan)) (.lit (.Float (.num 0)))) = none :=
  claim_C8 .Gt (.Float .nan) (.Float (.num 0)) [] 0 [] (Or.inl rfl) rfl rfl

/-- Each gate-checked stack step on a two-value stack either pushes a
single result or errs (helper for the chain-reduction claim). -/
theorem evalStep_shape (o : Operator) (a b : Value) :
    (∃ v, o.evalStep [b, a] = .ok [v]) ∨ o.evalStep [b, a] = .error () := by
  unfold Operator.evalStep
  cases hc : check_op o a b with
  | false => right; simp [hc]
  | true =>
    simp only [hc, if_true]
    cases o
    all_goals cases hp : Value.pcmp a b <;> simp [hp]

/-- C4: same-precedence operators reduce left to right — a linearized
run `v1 o1 v2 o2 v3` with `o1` and `o2` on one level evaluates exactly as
the left-parenthesized `(v1 o1 v2) o2 v3`, and the chain
`1 == 1 != false` evaluates to `Bool(true)`, i.e. as `(1 == 1) != false`. -/
theorem claim_C4 (o1 o2 : Operator) (v1 v2 v3 : Value)
    (h : o1.eq_preference o2 = true) :
    runToks [.val v1, .op o1, .val v2, .op o2, .val v3] [] [] =
      ((applyBin o1 v1 v2).bind fun r1 => applyBin o2 r1 v3) ∧
    runToks [.val (.Int 1), .op .Eq, .val (.Int 1), .op .Ne, .val (.Bool false)] [] []
      = some (.Bool true) := by
  refine ⟨?_, rfl⟩
  simp only [runToks, flushGE, h, Bool.or_true]
  rcases evalStep_shape o1 v1 v2 with ⟨r1, h1⟩ | h1
  · rcases evalStep_shape o2 r1 v3 with ⟨r2, h2⟩ | h2 <;>
      simp [h1, h2, runToks, flushGE, flushAll, applyBin]
  · simp [h1, applyBin]

/-- C4 witness: the chain `1 == 1 != false` (two comparisons on the shared
comparison level) reduces left to right and yields `Bool(true)`. -/
theorem claim_C4_witness :
    runToks [.val (.Int 1), .op .Eq, .val (.Int 1), .op .Ne, .val (.Bool false)] [] [] =
      ((applyBin .Eq (.Int 1) (.Int 1)).bind fun r1 => applyBin .Ne r1 (.Bool false)) ∧
    runToks [.val (.Int 1), .op .Eq, .val (.Int 1), .op .Ne, .val (.Bool false)] [] []
      = some (.Bool true) :=
  claim_C4 .Eq .Ne (.Int 1) (.Int 1) (.Bool false) rfl

/-- C5: the truncating numeric methods `trunc`, `floor`, `ceil`, `round`
return an `Int` value for every `Float` receiver, and `1.5.trunc()`
evaluates to `Int(1)`. -/
theorem claim_C5 (fl : F64) (f : Nat) (c : Ctx) :
    (∃ n, evalE (f + 2) c (.methodCall (.lit (.Float fl)) "trunc" []) = some (.Int n)) ∧
    (∃ n, evalE (f + 2) c (.methodCall (.lit (.Float fl)) "floor" []) = some (.Int n)) ∧
    (∃ n, evalE (f + 2) c (.methodCall (.lit (.Float fl)) "ceil" []) = some (.Int n)) ∧
    (∃ n, evalE (f + 2) c (.methodCall (.lit (.Float fl)) "round" []) = some (.Int n)) ∧
    evalE (f + 2) c (.methodCall (.lit (.Float (.num (mkRat 3 2)))) "trunc" [])
      = some (.Int 1) := by
  refine ⟨?_, ?_, ?_, ?_, rfl⟩ <;> cases fl <;> exact ⟨_, rfl⟩

/-- A method call whose receiver is an unbound identifier substitutes
`None` as receiver when the method is one of the tolerant Group-A
combinators, and is an outer failure otherwise (helper). -/
theorem mcall_ident_unbound (f : Nat) (c : Ctx) (nm m : String) (args : List Expr)
    (h : c.lookupK nm = none) :
    evalE (f + 1) c (.methodCall (.ident nm) m args) =
      if tolerantMethods.contains m then
        applyMethod (evalE f c) Value.None m args
      else none := by
  have h0 : evalE (f + 1) c (.methodCall (.ident nm) m args) =
      ((if tolerantMethods.contains m then some Value.None else none).bind
        fun r => applyMethod (evalE f c) r m args) := by
    simp only [evalE, h]
  rw [h0]
  cases hc : tolerantMethods.contains m <;> simp [hc]

/-- A method call whose receiver is the literal `None` dispatches with
receiver value `None` (helper). -/
theorem mcall_none_lit (f : Nat) (c : Ctx) (m : String) (args : List Expr) :
    evalE (f + 2) c (.methodCall (.lit Value.None) m args) =
      applyMethod (evalE (f + 1) c) Value.None m args := rfl

/-- C1: the Group-A combinators treat an unbound-name receiver
asymmetrically.  For any context and any name it does not bind:
`is_none`, `is_some`, `unwrap_or`, `or` and `xor` evaluate exactly as if
the receiver were the literal `None` (in particular `x.is_none()` yields
`Bool(true)`, `x.is_some()` yields `Bool(false)`, and `x.unwrap_or(d)`
and `x.or(d)` yield the evaluation of `d`), while `and` and `unwrap`
propagate outer absence: the whole evaluation returns no value. -/
theorem claim_C1 (f : Nat) (c : Ctx) (nm : String) (args : List Expr) (d : Expr)
    (h : c.lookupK nm = none) :
    (evalE (f + 2) c (.methodCall (.ident nm) "is_none" args)
      = evalE (f + 2) c (.methodCall (.lit Value.None) "is_none" args)) ∧
    (evalE (f + 2) c (.methodCall (.ident nm) "is_some" args)
      = evalE (f + 2) c (.methodCall (.lit Value.None) "is_some" args)) ∧
    (evalE (f + 2) c (.methodCall (.ident nm) "unwrap_or" args)
      = evalE (f + 2) c (.methodCall (.lit Value.None) "unwrap_or" args)) ∧
    (evalE (f + 2) c (.methodCall (.ident nm) "or" args)
      = evalE (f + 2) c (.methodCall (.lit Value.None) "or" args)) ∧
    (evalE (f + 2) c (.methodCall (.ident nm) "xor" args)
      = evalE (f + 2) c (.methodCall (.lit Value.None) "xor" args)) ∧
    (evalE (f + 2) c (.methodCall (.ident nm) "is_none" []) = some (.Bool true)) ∧
    (evalE (f + 2) c (.methodCall (.ident nm) "is_some" []) = some (.Bool false)) ∧
    (evalE (f + 2) c (.methodCall (.ident nm) "unwrap_or" [d]) = evalE (f + 1) c d) ∧
    (evalE (f + 2) c (.methodCall (.ident nm) "or" [d]) = evalE (f + 1) c d) ∧
    (evalE (f + 2) c (.methodCall (.ident nm) "and" args) = none) ∧
    (evalE (f + 2) c (.methodCall (.ident nm) "unwrap" args) = none) := by
  have key : ∀ m : String, ∀ as : List Expr,
      evalE (f + 2) c (.methodCall (.ident nm) m as) =
        if tolerantMethods.contains m then
          applyMethod (evalE (f + 1) c) Value.None m as
        else none :=
    fun m as => mcall_ident_unbound (f + 1) c nm m as h
  refine ⟨?_, ?_, ?_, ?_, ?_, ?_, ?_, ?_, ?_, ?_, ?_⟩ <;> rw [key] <;> rfl

/-- C1 witness: the asymmetry at the concrete unbound name `not_exist`
in the empty context, with argument `7`. -/
theorem claim_C1_witness :
    (evalE 2 [] (.methodCall (.ident "not_exist") "is_none" [])
      = evalE 2 [] (.methodCall (.lit Value.None) "is_none" [])) ∧
    (evalE 2 [] (.methodCall (.ident "not_exist") "is_some" [])
      = evalE 2 [] (.methodCall (.lit Value.None) "is_some" [])) ∧
    (evalE 2 [] (.methodCall (.ident "not_exist") "unwrap_or" [])
      = evalE 2 [] (.methodCall (.lit Value.None) "unwrap_or" [])) ∧
    (evalE 2 [] (.methodCall (.ident "not_exist") "or" [])
      = evalE 2 [] (.methodCall (.lit Value.None) "or" [])) ∧
    (evalE 2 [] (.methodCall (.ident "not_exist") "xor" [])
      = evalE 2 [] (.methodCall (.lit Value.None) "xor" [])) ∧
    (evalE 2 [] (.methodCall (.ident "not_exist") "is_none" []) = some (.Bool true)) ∧
    (evalE 2 [] (.methodCall (.ident "not_exist") "is_some" []) = some (.Bool false)) ∧
    (evalE 2 [] (.methodCall (.ident "not_exist") "unwrap_or" [.lit (.Int 7)])
      = evalE 1 [] (.lit (.Int 7))) ∧
    (evalE 2 [] (.methodCall (.ident "not_exist") "or" [.lit (.Int 7)])
      = evalE 1 [] (.lit (.Int 7))) ∧
    (evalE 2 [] (.methodCall (.ident "not_exist") "and" []) = none) ∧
    (evalE 2 [] (.methodCall (.ident "not_exist") "unwrap" []) = none) :=
  claim_C1 0 [] "not_exist" [] (.lit (.Int 7)) rfl

/-- C6: indexing a `Vec` with an out-of-bounds `Int` index, or slicing a
`Str` with a `Range` whose end exceeds the string's length, yields outer
absence — never a default or clamped value. -/
theorem claim_C6 (xs : List Value) (i : ℤ) (s : String) (a b : ℤ) (f : Nat) (c : Ctx)
    (hi : (xs.length : ℤ) ≤ i) (hb : (s.length : ℤ) < b) :
    indexVec xs i = none ∧ sliceStr s a b = none ∧
    evalE (f + 2) c (.index (.lit (.Vec xs)) (.lit (.Int i))) = none ∧
    evalE (f + 2) c (.index (.lit (.Str s)) (.lit (.Range a b))) = none := by
  have h1 : indexVec xs i = none := by
    cases i with
    | ofNat n =>
      have hn : xs.length ≤ n := by rw [Int.ofNat_eq_coe] at hi; exact_mod_cast hi
      show xs.get? n = none
      exact List.get?_eq_none.mpr hn
    | negSucc n => rfl
  have h2 : sliceStr s a b = none := by
    unfold sliceStr
    exact if_neg (fun hcond => absurd hcond.2.2 (not_le.mpr hb))
  exact ⟨h1, h2, by simp [evalE, h1], by simp [evalE, h2]⟩

/-- C6 witness: `[1,2][5]` and `"ab"[5..6]` yield no value. -/
theorem claim_C6_witness :
    indexVec [.Int 1, .Int 2] 5 = none ∧
    sliceStr "ab" 5 6 = none ∧
    evalE 2 [] (.index (.lit (.Vec [.Int 1, .Int 2])) (.lit (.Int 5))) = none ∧
    evalE 2 [] (.index (.lit (.Str "ab")) (.lit (.Range 5 6))) = none :=
  claim_C6 [.Int 1, .Int 2] 5 "ab" 5 6 0 []
    (by decide) (by decide)

/-- C7: canonical rendering prints booleans and numbers in literal form,
strings double-quoted, vectors as a bracketed comma-terminated list with
a trailing comma after every element (the value of the source literal
`[true,[1,2]]` renders as `"[true,[1,2,],]"`), and ranges as
`start..end`. -/
theorem claim_C7 (f : Nat) :
    Value.render (.Vec [.Bool true, .Vec [.Int 1, .Int 2]]) = "[true,[1,2,],]" ∧
    (evalE (f + 3) [] (.vec [.lit (.Bool true), .vec [.lit (.Int 1), .lit (.Int 2)]])).map
      Value.render = some "[true,[1,2,],]" ∧
    Value.render (.Bool true) = "true" ∧
    Value.render (.Bool false) = "false" ∧
    Value.render (.Int 42) = "42" ∧
    Value.render (.Str "foo") = "\"foo\"" ∧
    Value.render (.Range 0 1) = "0..1" :=
  ⟨rfl, rfl, rfl, rfl, rfl, rfl, rfl⟩

/-- C10: inserting an already-bound name replaces the previous entry —
lookup afterwards sees the second expression, the first binding is
discarded without error, and evaluating a reference to the name evaluates
the second expression. -/
theorem claim_C10 (f : Nat) (c : Ctx) (k : String) (e1 e2 : Expr) :
    ((c.insertKV k e1).insertKV k e2).lookupK k = some e2 ∧
    (Ctx.insertKV (Ctx.insertKV [] k e1) k e2) = [(k, e2)] ∧
    evalE (f + 1) ((c.insertKV k e1).insertKV k e2) (.ident k)
      = evalE f ((c.insertKV k e1).insertKV k e2) e2 := by
  have hl : ((c.insertKV k e1).insertKV k e2).lookupK k = some e2 := by
    simp [Ctx.lookupK, Ctx.insertKV, List.lookup]
  refine ⟨hl, ?_, ?_⟩
  · simp [Ctx.insertKV]
  · simp [evalE, hl]

end VEval
